import Mathlib

/-!
Verification of the texforge tiling-and-orchestration pipeline against a
shallow embedding of its source: the `ImageChunker` grid partition, the
`TextureForge.convertFile` failure normalization, and the
`TexForge.processMapToKTX2` orchestrator.  The source's JS numbers
(integral throughout) are modelled as `Nat`/`Int`; thrown exceptions as
`Except`; filesystem effects as an explicit event list.
-/

namespace TexForge

/-- Decimal digit characters of `n`, most significant first, with an
explicit fuel argument so the recursion is structural and the kernel can
evaluate it.  Models the decimal rendering JS applies to a nonnegative
integral number inside a template string. -/
def digitCharsAux : Nat → Nat → List Char
  | _, 0 => []
  | 0, _ + 1 => []
  | fuel + 1, n + 1 =>
    digitCharsAux fuel ((n + 1) / 10) ++ [Nat.digitChar ((n + 1) % 10)]

/-- Decimal rendering of a nonnegative integer, as JS string conversion. -/
def digitChars (n : Nat) : List Char :=
  if n = 0 then [Char.ofNat 48] else digitCharsAux n n

/-- Decimal rendering as a `String`. -/
def natStr (n : Nat) : String := ⟨digitChars n⟩

/-- The template string of `ImageChunker.createChunk`: `${col}_${row}`. -/
def chunkIdStr (col row : Nat) : String := natStr col ++ "_" ++ natStr row

/-- Model of `path.join` for the simple relative segments the pipeline uses. -/
def pathJoin (a b : String) : String := a ++ "/" ++ b

/-- First-occurrence substring replacement: the semantics of JS
`String.prototype.replace` with a string pattern. -/
def replaceOnceChars : List Char → List Char → List Char → List Char
  | [], _, _ => []
  | c :: rest, pat, rep =>
    if pat.isPrefixOf (c :: rest) then rep ++ List.drop pat.length (c :: rest)
    else c :: replaceOnceChars rest pat rep

/-- JS `s.replace(pat, rep)` for string `pat`: leftmost occurrence only. -/
def jsReplace (s pat rep : String) : String :=
  ⟨replaceOnceChars s.data pat.data rep.data⟩

/-- Model of `Math.ceil` of the rational `a / b` for integer `b ≠ 0`.  In the
source a zero chunk size makes the loop bound Infinity and the run then
fails inside the first zero-sized tile extract, a failure path this
embedding does not model; the `b = 0` value here is arbitrary and every
theorem assumes a nonzero chunk size. -/
def jsCeilDivI (a : Nat) (b : Int) : Int :=
  if b = 0 then 0 else -((-(a : Int)).fdiv b)

/-- The expression `(1 - c / o) * 100` as the source computes it on JS
numbers: `none` stands for the non-finite value produced when `o = 0`
(NaN when `c = 0` as well, -Infinity otherwise); for `o ≠ 0` the exact
rational value. -/
def jsRatio (c o : Nat) : Option ℚ :=
  if o = 0 then none else some ((1 - (c : ℚ) / (o : ℚ)) * 100)

/-- Embeds `core/types.ts` ChunkMetadata. -/
structure ChunkMetadata where
  id : String
  x : Nat
  y : Nat
  pixelX : Nat
  pixelY : Nat
  width : Nat
  height : Nat
  filename : String
deriving DecidableEq

/-- Embeds `core/types.ts` ChunkedMapMetadata.  `chunksX`/`chunksY` are `Int`
because the source computes them as `Math.ceil` of a possibly negative
quotient when the configured chunk size is negative. -/
structure ChunkedMapMetadata where
  version : Nat
  totalWidth : Nat
  totalHeight : Nat
  chunkWidth : Int
  chunkHeight : Int
  chunksX : Int
  chunksY : Int
  chunks : List ChunkMetadata
  format : String
deriving DecidableEq

/-- Embeds `core/types.ts` ConversionResult. -/
structure ConversionResult where
  success : Bool
  inputFile : String
  outputFile : String
  originalSize : Nat
  compressedSize : Nat
  compressionRatio : Option ℚ
  mode : String
  duration : Nat
  error : Option String
deriving DecidableEq

/-- Embeds `core/orchestrator.ts` ProcessResult. -/
structure ProcessResult where
  metadata : ChunkedMapMetadata
  conversions : List ConversionResult
  totalOriginalSize : Nat
  totalCompressedSize : Nat
  totalSaved : Int
  compressionRatio : Option ℚ
deriving DecidableEq

/-- Filesystem side effects of a pipeline run, in program order. -/
inductive FsEvent where
  | mkdir : String → FsEvent
  | writeFile : String → FsEvent
  | writeManifest : String → ChunkedMapMetadata → FsEvent
  | rmTree : String → FsEvent
deriving DecidableEq

/-- Embeds `ImageChunker.createChunk` (its pure metadata result; the caller
records the crop-and-write side effect).  `s` is the chunk size as a
`Nat`.  The `Nat` subtractions agree with the source's integer
subtractions because every in-grid call has `pixelX < W` and
`pixelY < H`. -/
def createChunk (s W H : Nat) (fmt : String) (col row : Nat) : ChunkMetadata :=
  let cid := chunkIdStr col row
  let pixelX := col * s
  let pixelY := row * s
  { id := cid, x := col, y := row, pixelX := pixelX, pixelY := pixelY,
    width := min s (W - pixelX), height := min s (H - pixelY),
    filename := cid ++ "." ++ fmt }

/-- The row-major double loop of `ImageChunker.chunkImage`. -/
def chunkGrid (W H : Nat) (S : Int) (fmt : String) : List ChunkMetadata :=
  (List.range (jsCeilDivI H S).toNat).flatMap fun row =>
    (List.range (jsCeilDivI W S).toNat).map fun col =>
      createChunk S.toNat W H fmt col row

/-- The `mapMetadata` record `ImageChunker.chunkImage` builds. -/
def chunkMd (W H : Nat) (S : Int) (fmt : String) : ChunkedMapMetadata :=
  { version := 1, totalWidth := W, totalHeight := H,
    chunkWidth := S, chunkHeight := S,
    chunksX := jsCeilDivI W S, chunksY := jsCeilDivI H S,
    chunks := chunkGrid W H S fmt, format := fmt }

/-- Embeds `ImageChunker.chunkImage` for an image whose dimensions read as
`(W, H)`: mkdir of the output directory, the dimension check (a zero
dimension is falsy in JS and throws), the grid loop writing one tile
file per chunk, then `saveMetadata` writing `metadata.json` into the
chunker's own output directory.  Returns the result (or the thrown
error message) together with the filesystem events that happened. -/
def chunkImage (W H : Nat) (S : Int) (fmt dir : String) :
    Except String ChunkedMapMetadata × List FsEvent :=
  if W = 0 ∨ H = 0 then
    (Except.error "Failed to read image dimensions", [FsEvent.mkdir dir])
  else
    let md := chunkMd W H S fmt
    (Except.ok md,
      FsEvent.mkdir dir ::
        (md.chunks.map fun c => FsEvent.writeFile (pathJoin dir c.filename)) ++
        [FsEvent.writeManifest (pathJoin dir "metadata.json") md])

/-- Outcomes the environment gives to each fallible step of
`TextureForge.convertFile`: `fs.access` on the input, `fs.stat` on the
input (yielding its size), the toktx subprocess, `fs.stat` on the
output (yielding its size). -/
structure FsEnv where
  access : Except String Unit
  statIn : Except String Nat
  exec : Except String Unit
  statOut : Except String Nat

/-- The chain of awaited steps inside `convertFile`'s try block,
yielding (originalSize, compressedSize) or the first failure. -/
def convertSteps (env : FsEnv) : Except String (Nat × Nat) := do
  _ ← env.access
  let o ← env.statIn
  _ ← env.exec
  let c ← env.statOut
  pure (o, c)

/-- The default output name: the trailing `.png`/`.jpg`/`.jpeg`
(case-insensitive, as the source's anchored regex) becomes `.ktx2`. -/
def ktx2Name (s : String) : String :=
  if (s.takeRight 4).toLower = ".png" ∨ (s.takeRight 4).toLower = ".jpg" then
    s.dropRight 4 ++ ".ktx2"
  else if (s.takeRight 5).toLower = ".jpeg" then
    s.dropRight 5 ++ ".ktx2"
  else s

/-- Embeds `TextureForge.convertFile`: the try block on success, the catch
block normalizing any failure to a zeroed, `success := false` outcome
carrying the error message. -/
def convertFile (env : FsEnv) (mode inputPath : String)
    (outputPath : Option String) (duration : Nat) : ConversionResult :=
  let outFile := outputPath.getD (ktx2Name inputPath)
  match convertSteps env with
  | Except.ok (o, c) =>
    { success := true, inputFile := inputPath, outputFile := outFile,
      originalSize := o, compressedSize := c,
      compressionRatio := jsRatio c o, mode := mode, duration := duration,
      error := none }
  | Except.error e =>
    { success := false, inputFile := inputPath, outputFile := outFile,
      originalSize := 0, compressedSize := 0, compressionRatio := some 0,
      mode := mode, duration := duration, error := some e }

/-- Accumulator of the orchestrator's compress loop. -/
structure CompressAcc where
  conversions : List ConversionResult
  totalOriginalSize : Nat
  totalCompressedSize : Nat
  chunks : List ChunkMetadata
deriving DecidableEq

/-- The per-chunk loop of `TexForge.processMapToKTX2`: convert, push the
outcome, and on success add to the running totals and rewrite the
manifest entry's filename from `.png` to `.ktx2`.  `conv` is the
behavior of `forge.convertFile`: (input path, output path) ↦ outcome. -/
def compressLoop (conv : String → String → ConversionResult)
    (chunksDir ktx2Dir : String) : List ChunkMetadata → CompressAcc
  | [] =>
    { conversions := [], totalOriginalSize := 0, totalCompressedSize := 0,
      chunks := [] }
  | ch :: rest =>
    let r := conv (pathJoin chunksDir ch.filename)
      (pathJoin ktx2Dir (jsReplace ch.filename ".png" ".ktx2"))
    let acc := compressLoop conv chunksDir ktx2Dir rest
    { conversions := r :: acc.conversions
      totalOriginalSize :=
        (if r.success then r.originalSize else 0) + acc.totalOriginalSize
      totalCompressedSize :=
        (if r.success then r.compressedSize else 0) + acc.totalCompressedSize
      chunks :=
        (if r.success then
          { ch with filename := jsReplace ch.filename ".png" ".ktx2" }
         else ch) :: acc.chunks }

/-- Embeds `TexForge.processMapToKTX2` for an input image whose dimensions read
as `(W, H)`: chunk into `<outputDir>/chunks_temp`, convert every chunk,
`rm -rf` the temp directory (`rmRes` is the environment's outcome for
that), flip the manifest format to ktx2 and write it to
`<outputDir>/chunks/metadata.json`, and return the aggregate report.
Also returns the filesystem events that happened before any failure. -/
def processMapToKTX2 (conv : String → String → ConversionResult)
    (rmRes : Except String Unit) (outputDir : String) (W H : Nat) (S : Int) :
    Except String ProcessResult × List FsEvent :=
  match chunkImage W H S "png" (pathJoin outputDir "chunks_temp") with
  | (Except.error e, evs) => (Except.error e, evs)
  | (Except.ok metadata, evs) =>
    let chunksDir := pathJoin outputDir "chunks_temp"
    let ktx2Dir := pathJoin outputDir "chunks"
    let evs := evs ++ [FsEvent.mkdir ktx2Dir]
    let acc := compressLoop conv chunksDir ktx2Dir metadata.chunks
    match rmRes with
    | Except.error e => (Except.error e, evs)
    | Except.ok _ =>
      let md2 := { metadata with chunks := acc.chunks, format := "ktx2" }
      (Except.ok
        { metadata := md2, conversions := acc.conversions,
          totalOriginalSize := acc.totalOriginalSize,
          totalCompressedSize := acc.totalCompressedSize,
          totalSaved :=
            (acc.totalOriginalSize : Int) - (acc.totalCompressedSize : Int),
          compressionRatio :=
            jsRatio acc.totalCompressedSize acc.totalOriginalSize },
        evs ++ [FsEvent.rmTree chunksDir,
          FsEvent.writeManifest (pathJoin ktx2Dir "metadata.json") md2])

/-- The manifest-persist events of a trace: target path and the format
tag of the manifest written there. -/
def manifestWrites (evs : List FsEvent) : List (String × String) :=
  evs.filterMap fun e =>
    match e with
    | FsEvent.writeManifest p m => some (p, m.format)
    | _ => none

/-- Ceiling division on naturals, the value of `Math.ceil(a / s)` for a
positive divisor. -/
def natCeilDiv (a s : Nat) : Nat := (a + s - 1) / s

lemma natCeilDiv_succ (a s : Nat) (hs : 0 < s) (ha : 0 < a) :
    natCeilDiv a s = (a - 1) / s + 1 := by
  unfold natCeilDiv
  have h : a + s - 1 = (a - 1) + s := by omega
  rw [h, Nat.add_div_right _ hs]

lemma le_natCeilDiv_mul (a s : Nat) (hs : 0 < s) : a ≤ natCeilDiv a s * s := by
  rcases Nat.eq_zero_or_pos a with ha | ha
  · omega
  · rw [natCeilDiv_succ a s hs ha, Nat.succ_mul]
    have h1 := Nat.div_add_mod (a - 1) s
    have h2 : (a - 1) % s < s := Nat.mod_lt _ hs
    have h3 : (a - 1) / s * s = s * ((a - 1) / s) := Nat.mul_comm _ _
    omega

lemma mul_lt_of_lt_natCeilDiv {a s col : Nat} (hs : 0 < s)
    (h : col < natCeilDiv a s) : col * s < a := by
  have ha : 0 < a := by
    by_contra hc
    have : a = 0 := by omega
    subst this
    have : natCeilDiv 0 s = 0 := by
      unfold natCeilDiv
      exact Nat.div_eq_of_lt (by omega)
    omega
  rw [natCeilDiv_succ a s hs ha] at h
  have hcol : col ≤ (a - 1) / s := by omega
  calc col * s ≤ (a - 1) / s * s := Nat.mul_le_mul_right s hcol
    _ ≤ a - 1 := Nat.div_mul_le_self _ _
    _ < a := by omega

lemma div_lt_natCeilDiv {a s x : Nat} (hs : 0 < s) (hx : x < a) :
    x / s < natCeilDiv a s := by
  have ha : 0 < a := by omega
  rw [natCeilDiv_succ a s hs ha]
  have : x / s ≤ (a - 1) / s := Nat.div_le_div_right (by omega)
  omega

lemma nat_div_eq_iff {s x col : Nat} (hs : 0 < s) :
    x / s = col ↔ (col * s ≤ x ∧ x < col * s + s) := by
  constructor
  · intro h
    subst h
    have h1 := Nat.div_add_mod x s
    have h2 : x % s < s := Nat.mod_lt _ hs
    have h3 : x / s * s = s * (x / s) := Nat.mul_comm _ _
    omega
  · rintro ⟨h1, h2⟩
    exact Nat.div_eq_of_lt_le h1 (by rw [Nat.succ_mul]; omega)

lemma jsCeilDivI_eq (a s : Nat) (hs : 0 < s) :
    jsCeilDivI a (s : Int) = ((natCeilDiv a s : Nat) : Int) := by
  have hsZ : ((s : Int)) ≠ 0 := by
    simpa using Nat.pos_iff_ne_zero.mp hs
  have hfd : jsCeilDivI a (s : Int) = -((-(a : Int)) / (s : Int)) := by
    unfold jsCeilDivI
    rw [if_neg hsZ, Int.fdiv_eq_ediv _ (by exact_mod_cast Nat.zero_le s)]
  rcases Nat.eq_zero_or_pos a with ha | ha
  · subst ha
    have h1 : natCeilDiv 0 s = 0 := by
      unfold natCeilDiv
      exact Nat.div_eq_of_lt (by omega)
    rw [hfd, h1]
    simp
  · set k := natCeilDiv a s with hk
    have hspos : (0 : Int) < (s : Int) := by exact_mod_cast hs
    have hub : a ≤ k * s := le_natCeilDiv_mul a s hs
    have hk1 : 1 ≤ k := by
      have := le_natCeilDiv_mul a s hs
      by_contra hc
      have : k = 0 := by omega
      rw [this] at hub
      omega
    have hlb : (k - 1) * s < a := by
      rw [hk, natCeilDiv_succ a s hs ha]
      have := Nat.div_mul_le_self (a - 1) s
      simpa using by omega
    have hdiv : (-(a : Int)) / (s : Int) = -(k : Int) := by
      apply le_antisymm
      · rw [← Int.lt_add_one_iff]
        rw [Int.ediv_lt_iff_lt_mul hspos]
        have hlbI : ((k : Int) - 1) * (s : Int) < (a : Int) := by
          zify [hk1] at hlb
          exact hlb
        have hrw : ((-(k : Int)) + 1) * (s : Int) = -(((k : Int) - 1) * (s : Int)) := by
          ring
        rw [hrw]
        exact Int.neg_lt_neg hlbI
      · rw [Int.le_ediv_iff_mul_le hspos]
        have hubI : (a : Int) ≤ (k : Int) * (s : Int) := by exact_mod_cast hub
        have hrw : (-(k : Int)) * (s : Int) = -((k : Int) * (s : Int)) := by ring
        rw [hrw]
        exact Int.neg_le_neg hubI
    rw [hfd, hdiv]
    simp

lemma jsCeilDivI_toNat (a s : Nat) (hs : 0 < s) :
    (jsCeilDivI a (s : Int)).toNat = natCeilDiv a s := by
  rw [jsCeilDivI_eq a s hs, Int.toNat_natCast]

lemma flatMap_range_map {α : Type} (n m : Nat) (f : Nat → Nat → α) :
    (List.range n).flatMap (fun r => (List.range m).map (f r)) =
      (List.range (n * m)).map (fun i => f (i / m) (i % m)) := by
  induction n with
  | zero => simp
  | succ n ih =>
    rw [List.range_succ, List.flatMap_append, ih, Nat.succ_mul,
      List.range_add, List.map_append, List.map_map]
    congr 1
    simp only [List.flatMap_cons, List.flatMap_nil, List.append_nil]
    apply List.map_congr_left
    intro j hj
    have hjm : j < m := List.mem_range.mp hj
    have hm : 0 < m := by omega
    have hdiv : (n * m + j) / m = n := by
      rw [Nat.mul_comm n m, Nat.mul_add_div hm]
      simp [Nat.div_eq_of_lt hjm]
    have hmod : (n * m + j) % m = j := by
      rw [Nat.mul_comm n m, Nat.mul_add_mod, Nat.mod_eq_of_lt hjm]
    simp [Function.comp, hdiv, hmod]

lemma chunkGrid_map (W H s : Nat) (fmt : String) (hs : 0 < s) :
    chunkGrid W H (s : Int) fmt =
      (List.range (natCeilDiv H s * natCeilDiv W s)).map
        (fun i => createChunk s W H fmt (i % natCeilDiv W s) (i / natCeilDiv W s)) := by
  unfold chunkGrid
  rw [jsCeilDivI_toNat W s hs, jsCeilDivI_toNat H s hs, Int.toNat_natCast]
  exact flatMap_range_map _ _ _

lemma chunkGrid_length (W H s : Nat) (fmt : String) (hs : 0 < s) :
    (chunkGrid W H (s : Int) fmt).length = natCeilDiv H s * natCeilDiv W s := by
  rw [chunkGrid_map W H s fmt hs]
  simp

lemma chunkGrid_getElem (W H s : Nat) (fmt : String) (hs : 0 < s) {i : Nat}
    (hi : i < natCeilDiv H s * natCeilDiv W s) :
    (chunkGrid W H (s : Int) fmt)[i]? =
      some (createChunk s W H fmt (i % natCeilDiv W s) (i / natCeilDiv W s)) := by
  rw [chunkGrid_map W H s fmt hs, List.getElem?_map, List.getElem?_range hi]
  rfl

/-- Pixel (x, y) lies inside the rectangle of chunk `c`. -/
def memPixel (c : ChunkMetadata) (x y : Nat) : Prop :=
  c.pixelX ≤ x ∧ x < c.pixelX + c.width ∧ c.pixelY ≤ y ∧ y < c.pixelY + c.height

lemma width_interval {s W col : Nat} (hs : 0 < s) (hcol : col < natCeilDiv W s)
    (x : Nat) : (x < col * s + min s (W - col * s)) ↔ (x < col * s + s ∧ x < W) := by
  have hlt : col * s < W := mul_lt_of_lt_natCeilDiv hs hcol
  omega

lemma memPixel_createChunk {s W H col row : Nat} (fmt : String) (hs : 0 < s)
    (hcol : col < natCeilDiv W s) (hrow : row < natCeilDiv H s) (x y : Nat) :
    memPixel (createChunk s W H fmt col row) x y ↔
      (x / s = col ∧ y / s = row ∧ x < W ∧ y < H) := by
  unfold memPixel createChunk
  simp only []
  rw [width_interval hs hcol x, width_interval hs hrow y,
    nat_div_eq_iff hs, nat_div_eq_iff hs]
  omega

lemma index_lt {row col n m : Nat} (hr : row < n) (hc : col < m) :
    row * m + col < n * m := by
  calc row * m + col < row * m + m := by omega
    _ = (row + 1) * m := by rw [Nat.succ_mul]
    _ ≤ n * m := Nat.mul_le_mul_right m hr

lemma rowcol_mod {row col m : Nat} (hc : col < m) : (row * m + col) % m = col := by
  rw [Nat.mul_comm row m, Nat.mul_add_mod, Nat.mod_eq_of_lt hc]

lemma rowcol_div {row col m : Nat} (hc : col < m) : (row * m + col) / m = row := by
  rw [Nat.mul_comm row m, Nat.mul_add_div (by omega), Nat.div_eq_of_lt hc]
  omega

lemma chunkGrid_elem_inv (W H s : Nat) (fmt : String) (hs : 0 < s) {i : Nat}
    {ci : ChunkMetadata} (h : (chunkGrid W H (s : Int) fmt)[i]? = some ci) :
    i < natCeilDiv H s * natCeilDiv W s ∧
      ci = createChunk s W H fmt (i % natCeilDiv W s) (i / natCeilDiv W s) := by
  have h1 : i < (chunkGrid W H (s : Int) fmt).length := by
    rcases List.getElem?_eq_some_iff.mp h with ⟨hl, _⟩
    exact hl
  rw [chunkGrid_length W H s fmt hs] at h1
  refine ⟨h1, ?_⟩
  have h2 := chunkGrid_getElem W H s fmt hs h1
  rw [h] at h2
  exact Option.some_inj.mp h2

lemma sum_flatMap {α : Type} (l : List α) (f : α → List Nat) :
    (l.flatMap f).sum = (l.map fun a => (f a).sum).sum := by
  induction l with
  | nil => simp
  | cons a l ih => simp [List.flatMap_cons, List.sum_append, ih]

lemma sum_min_widths (W s n : Nat) :
    ((List.range n).map fun col => min s (W - col * s)).sum = min (n * s) W := by
  induction n with
  | zero => simp
  | succ n ih =>
    rw [List.range_succ, List.map_append, List.sum_append, ih]
    simp only [List.map_cons, List.map_nil, List.sum_cons, List.sum_nil]
    rw [Nat.succ_mul]
    omega

lemma chunkGrid_area (W H s : Nat) (fmt : String) (hs : 0 < s) :
    ((chunkGrid W H (s : Int) fmt).map fun c => c.width * c.height).sum = W * H := by
  unfold chunkGrid
  rw [jsCeilDivI_toNat W s hs, jsCeilDivI_toNat H s hs, Int.toNat_natCast,
    List.map_flatMap, sum_flatMap]
  have hinner : ∀ row : Nat,
      ((List.range (natCeilDiv W s)).map fun col =>
        (fun c => c.width * c.height) (createChunk s W H fmt col row)).sum =
        W * min s (H - row * s) := by
    intro row
    have : ((List.range (natCeilDiv W s)).map fun col =>
        (fun c => c.width * c.height) (createChunk s W H fmt col row)) =
        ((List.range (natCeilDiv W s)).map fun col =>
          min s (W - col * s) * min s (H - row * s)) := by
      apply List.map_congr_left
      intro col _
      simp [createChunk]
    rw [this, List.sum_map_mul_right, sum_min_widths]
    have hW : min (natCeilDiv W s * s) W = W :=
      min_eq_right (le_natCeilDiv_mul W s hs)
    rw [hW]
  have houter : ((List.range (natCeilDiv H s)).map fun row =>
      (((List.range (natCeilDiv W s)).map fun col =>
        createChunk s W H fmt col row).map fun c => c.width * c.height).sum) =
      ((List.range (natCeilDiv H s)).map fun row => W * min s (H - row * s)) := by
    apply List.map_congr_left
    intro row _
    rw [List.map_map]
    exact hinner row
  rw [houter, List.sum_map_mul_left, sum_min_widths]
  have hH : min (natCeilDiv H s * s) H = H :=
    min_eq_right (le_natCeilDiv_mul H s hs)
  rw [hH]

lemma digitChar_inj_lt : ∀ d < 10, ∀ e < 10,
    Nat.digitChar d = Nat.digitChar e → d = e := by decide

lemma digitChar_ne_underscore : ∀ d < 10, Nat.digitChar d ≠ Char.ofNat 95 := by
  decide

lemma digitChar_ne_dot : ∀ d < 10, Nat.digitChar d ≠ Char.ofNat 46 := by decide

lemma digitCharsAux_zero (fuel : Nat) : digitCharsAux fuel 0 = [] := by
  cases fuel <;> rfl

lemma digitCharsAux_ne_nil {fuel n : Nat} (hn : 0 < n) (hf : n ≤ fuel) :
    digitCharsAux fuel n ≠ [] := by
  obtain ⟨f, rfl⟩ : ∃ f, fuel = f + 1 := ⟨fuel - 1, by omega⟩
  obtain ⟨m, rfl⟩ : ∃ m, n = m + 1 := ⟨n - 1, by omega⟩
  simp [digitCharsAux]

lemma digitCharsAux_mem : ∀ (fuel n : Nat) (c : Char), c ∈ digitCharsAux fuel n →
    ∃ d, d < 10 ∧ c = Nat.digitChar d := by
  intro fuel
  induction fuel with
  | zero =>
    intro n c hc
    cases n with
    | zero => simp [digitCharsAux] at hc
    | succ m => simp [digitCharsAux] at hc
  | succ f ih =>
    intro n c hc
    cases n with
    | zero => simp [digitCharsAux] at hc
    | succ m =>
      simp only [digitCharsAux] at hc
      rcases List.mem_append.mp hc with h | h
      · exact ih _ _ h
      · simp only [List.mem_singleton] at h
        exact ⟨(m + 1) % 10, Nat.mod_lt _ (by omega), h⟩

lemma digitCharsAux_inj (n1 : Nat) : ∀ (f1 n2 f2 : Nat), 0 < n1 → n1 ≤ f1 →
    0 < n2 → n2 ≤ f2 → digitCharsAux f1 n1 = digitCharsAux f2 n2 → n1 = n2 := by
  induction n1 using Nat.strong_induction_on with
  | _ n1 ih =>
    intro f1 n2 f2 h1 hf1 h2 hf2 heq
    obtain ⟨a1, rfl⟩ : ∃ a, f1 = a + 1 := ⟨f1 - 1, by omega⟩
    obtain ⟨m1, rfl⟩ : ∃ m, n1 = m + 1 := ⟨n1 - 1, by omega⟩
    obtain ⟨a2, rfl⟩ : ∃ a, f2 = a + 1 := ⟨f2 - 1, by omega⟩
    obtain ⟨m2, rfl⟩ : ∃ m, n2 = m + 1 := ⟨n2 - 1, by omega⟩
    simp only [digitCharsAux] at heq
    rcases List.append_inj' heq (by simp) with ⟨hA, hD⟩
    have hDeq : Nat.digitChar ((m1 + 1) % 10) = Nat.digitChar ((m2 + 1) % 10) := by
      simpa using hD
    have hmod : (m1 + 1) % 10 = (m2 + 1) % 10 :=
      digitChar_inj_lt _ (Nat.mod_lt _ (by omega)) _ (Nat.mod_lt _ (by omega)) hDeq
    have hd1 : (m1 + 1) / 10 ≤ a1 := by
      have := Nat.div_lt_self (Nat.succ_pos m1) (by omega : (1 : Nat) < 10)
      omega
    have hd2 : (m2 + 1) / 10 ≤ a2 := by
      have := Nat.div_lt_self (Nat.succ_pos m2) (by omega : (1 : Nat) < 10)
      omega
    have e1 := Nat.div_add_mod (m1 + 1) 10
    have e2 := Nat.div_add_mod (m2 + 1) 10
    rcases Nat.eq_zero_or_pos ((m1 + 1) / 10) with hz1 | hp1
    · rcases Nat.eq_zero_or_pos ((m2 + 1) / 10) with hz2 | hp2
      · omega
      · exfalso
        rw [hz1, digitCharsAux_zero] at hA
        exact digitCharsAux_ne_nil hp2 hd2 hA.symm
    · rcases Nat.eq_zero_or_pos ((m2 + 1) / 10) with hz2 | hp2
      · exfalso
        rw [hz2, digitCharsAux_zero] at hA
        exact digitCharsAux_ne_nil hp1 hd1 hA
      · have hq := ih ((m1 + 1) / 10)
          (Nat.div_lt_self (by omega) (by omega)) a1 ((m2 + 1) / 10) a2
          hp1 hd1 hp2 hd2 hA
        omega

lemma digitChars_inj {a b : Nat} (h : digitChars a = digitChars b) : a = b := by
  unfold digitChars at h
  rcases Nat.eq_zero_or_pos a with ha | ha <;>
    rcases Nat.eq_zero_or_pos b with hb | hb
  · omega
  · exfalso
    rw [if_pos (by omega), if_neg (by omega)] at h
    obtain ⟨m, rfl⟩ : ∃ m, b = m + 1 := ⟨b - 1, by omega⟩
    simp only [digitCharsAux] at h
    have h2 : ([] : List Char) ++ [Char.ofNat 48] =
        digitCharsAux m ((m + 1) / 10) ++ [Nat.digitChar ((m + 1) % 10)] := by
      simpa using h
    rcases List.append_inj' h2 (by simp) with ⟨hA, hD⟩
    have hc : Char.ofNat 48 = Nat.digitChar ((m + 1) % 10) := by simpa using hD
    have h48 : Nat.digitChar 0 = Char.ofNat 48 := by decide
    have hm0 : (0 : Nat) = (m + 1) % 10 :=
      digitChar_inj_lt 0 (by omega) _ (Nat.mod_lt _ (by omega)) (h48.trans hc)
    have hd : (m + 1) / 10 ≤ m := by
      have := Nat.div_lt_self (Nat.succ_pos m) (by omega : (1 : Nat) < 10)
      omega
    have e1 := Nat.div_add_mod (m + 1) 10
    rcases Nat.eq_zero_or_pos ((m + 1) / 10) with hz | hp
    · omega
    · exact digitCharsAux_ne_nil hp hd hA.symm
  · exfalso
    rw [if_neg (by omega), if_pos (by omega)] at h
    obtain ⟨m, rfl⟩ : ∃ m, a = m + 1 := ⟨a - 1, by omega⟩
    simp only [digitCharsAux] at h
    have h2 : digitCharsAux m ((m + 1) / 10) ++ [Nat.digitChar ((m + 1) % 10)] =
        ([] : List Char) ++ [Char.ofNat 48] := by
      simpa using h
    rcases List.append_inj' h2 (by simp) with ⟨hA, hD⟩
    have hc : Nat.digitChar ((m + 1) % 10) = Char.ofNat 48 := by simpa using hD
    have h48 : Nat.digitChar 0 = Char.ofNat 48 := by decide
    have hm0 : (m + 1) % 10 = 0 :=
      digitChar_inj_lt _ (Nat.mod_lt _ (by omega)) 0 (by omega)
        (hc.trans h48.symm)
    have hd : (m + 1) / 10 ≤ m := by
      have := Nat.div_lt_self (Nat.succ_pos m) (by omega : (1 : Nat) < 10)
      omega
    have e1 := Nat.div_add_mod (m + 1) 10
    rcases Nat.eq_zero_or_pos ((m + 1) / 10) with hz | hp
    · omega
    · exact digitCharsAux_ne_nil hp hd hA
  · rw [if_neg (by omega), if_neg (by omega)] at h
    exact digitCharsAux_inj a a b b ha (le_refl a) hb (le_refl b) h

lemma digitChars_mem {n : Nat} {c : Char} (h : c ∈ digitChars n) :
    ∃ d, d < 10 ∧ c = Nat.digitChar d := by
  unfold digitChars at h
  by_cases hn : n = 0
  · rw [if_pos hn] at h
    simp only [List.mem_singleton] at h
    refine ⟨0, by omega, ?_⟩
    rw [h]
    decide
  · rw [if_neg hn] at h
    exact digitCharsAux_mem _ _ _ h

lemma underscore_notMem_digitChars (n : Nat) : Char.ofNat 95 ∉ digitChars n := by
  intro h
  rcases digitChars_mem h with ⟨d, hd, hc⟩
  exact digitChar_ne_underscore d hd hc.symm

lemma dot_notMem_digitChars (n : Nat) : Char.ofNat 46 ∉ digitChars n := by
  intro h
  rcases digitChars_mem h with ⟨d, hd, hc⟩
  exact digitChar_ne_dot d hd hc.symm

lemma natStr_inj {a b : Nat} (h : natStr a = natStr b) : a = b := by
  unfold natStr at h
  injection h with h2
  exact digitChars_inj h2

lemma chunkIdStr_data (col row : Nat) :
    (chunkIdStr col row).data = digitChars col ++ Char.ofNat 95 :: digitChars row := by
  unfold chunkIdStr natStr
  rw [String.data_append, String.data_append]
  simp

lemma append_marker_inj (mark : Char) : ∀ (l1 l2 r1 r2 : List Char),
    mark ∉ l1 → mark ∉ l2 → l1 ++ mark :: r1 = l2 ++ mark :: r2 →
    l1 = l2 ∧ r1 = r2 := by
  intro l1
  induction l1 with
  | nil =>
    intro l2 r1 r2 h1 h2 heq
    cases l2 with
    | nil => simpa using heq
    | cons c t =>
      exfalso
      simp only [List.nil_append, List.cons_append, List.cons.injEq] at heq
      exact h2 (by rw [← heq.1]; exact List.mem_cons_self _ _)
  | cons c t ih =>
    intro l2 r1 r2 h1 h2 heq
    cases l2 with
    | nil =>
      exfalso
      simp only [List.nil_append, List.cons_append, List.cons.injEq] at heq
      exact h1 (by rw [heq.1]; exact List.mem_cons_self _ _)
    | cons c2 t2 =>
      simp only [List.cons_append, List.cons.injEq] at heq
      rcases heq with ⟨hc, ht⟩
      have h1t : mark ∉ t := fun hm => h1 (List.mem_cons_of_mem _ hm)
      have h2t : mark ∉ t2 := fun hm => h2 (List.mem_cons_of_mem _ hm)
      rcases ih t2 r1 r2 h1t h2t ht with ⟨he1, he2⟩
      exact ⟨by rw [hc, he1], he2⟩

lemma chunkIdStr_inj {c1 r1 c2 r2 : Nat}
    (h : chunkIdStr c1 r1 = chunkIdStr c2 r2) : c1 = c2 ∧ r1 = r2 := by
  have hd : (chunkIdStr c1 r1).data = (chunkIdStr c2 r2).data := by rw [h]
  rw [chunkIdStr_data, chunkIdStr_data] at hd
  rcases append_marker_inj (Char.ofNat 95) _ _ _ _
    (underscore_notMem_digitChars c1) (underscore_notMem_digitChars c2) hd with
    ⟨h1, h2⟩
  exact ⟨digitChars_inj h1, digitChars_inj h2⟩

lemma append_right_inj {a b suf : String} (h : a ++ suf = b ++ suf) : a = b := by
  have hd : (a ++ suf).data = (b ++ suf).data := by rw [h]
  rw [String.data_append, String.data_append] at hd
  exact String.ext (List.append_cancel_right hd)

lemma isPrefixOf_self (l : List Char) : l.isPrefixOf l = true := by
  induction l with
  | nil => rfl
  | cons c t ih => simp [List.isPrefixOf, ih]

lemma replaceOnce_at_end (pt rep : List Char) :
    ∀ l : List Char, Char.ofNat 46 ∉ l →
      replaceOnceChars (l ++ Char.ofNat 46 :: pt) (Char.ofNat 46 :: pt) rep =
        l ++ rep := by
  intro l
  induction l with
  | nil =>
    intro _
    simp only [List.nil_append]
    rw [replaceOnceChars, if_pos (isPrefixOf_self _)]
    have hd : List.drop (Char.ofNat 46 :: pt).length (Char.ofNat 46 :: pt) =
        ([] : List Char) := List.drop_length _
    rw [hd]
    simp
  | cons c t ih =>
    intro hl
    have hne : Char.ofNat 46 ≠ c := fun h => hl (by rw [h]; exact List.mem_cons_self _ _)
    have hlt : Char.ofNat 46 ∉ t := fun h => hl (List.mem_cons_of_mem _ h)
    simp only [List.cons_append]
    rw [replaceOnceChars]
    have hpre : (Char.ofNat 46 :: pt).isPrefixOf
        (c :: (t ++ Char.ofNat 46 :: pt)) = false := by
      simp [List.isPrefixOf, beq_eq_false_iff_ne.mpr hne]
    rw [hpre]
    simp only [Bool.false_eq_true, if_false, List.cons.injEq, true_and]
    exact ih hlt

lemma jsReplace_png_ext (idStr : String) (hdot : Char.ofNat 46 ∉ idStr.data) :
    jsReplace (idStr ++ ".png") ".png" ".ktx2" = idStr ++ ".ktx2" := by
  unfold jsReplace
  apply String.ext
  show replaceOnceChars (idStr ++ ".png").data (".png" : String).data
      (".ktx2" : String).data = (idStr ++ ".ktx2").data
  rw [String.data_append, String.data_append]
  have h1 : (".png" : String).data = Char.ofNat 46 :: ("png" : String).data := by
    decide
  rw [h1]
  exact replaceOnce_at_end _ _ idStr.data hdot

lemma dot_notMem_chunkIdStr (col row : Nat) :
    Char.ofNat 46 ∉ (chunkIdStr col row).data := by
  rw [chunkIdStr_data]
  intro h
  rcases List.mem_append.mp h with h | h
  · exact dot_notMem_digitChars col h
  · rcases List.mem_cons.mp h with h | h
    · exact absurd h (by decide)
    · exact dot_notMem_digitChars row h

lemma createChunk_fields (s W H : Nat) (fmt : String) (col row : Nat) :
    (createChunk s W H fmt col row).id = chunkIdStr col row ∧
    (createChunk s W H fmt col row).x = col ∧
    (createChunk s W H fmt col row).y = row ∧
    (createChunk s W H fmt col row).pixelX = col * s ∧
    (createChunk s W H fmt col row).pixelY = row * s ∧
    (createChunk s W H fmt col row).width = min s (W - col * s) ∧
    (createChunk s W H fmt col row).height = min s (H - row * s) ∧
    (createChunk s W H fmt col row).filename = chunkIdStr col row ++ "." ++ fmt :=
  ⟨rfl, rfl, rfl, rfl, rfl, rfl, rfl, rfl⟩

lemma string_dot_png (a : String) : a ++ "." ++ "png" = a ++ ".png" := by
  apply String.ext
  rw [String.data_append, String.data_append, String.data_append,
    List.append_assoc]
  have h : ("." : String).data ++ ("png" : String).data =
      (".png" : String).data := by decide
  rw [h]

lemma string_dot_ktx2 (a : String) : a ++ "." ++ "ktx2" = a ++ ".ktx2" := by
  apply String.ext
  rw [String.data_append, String.data_append, String.data_append,
    List.append_assoc]
  have h : ("." : String).data ++ ("ktx2" : String).data =
      (".ktx2" : String).data := by decide
  rw [h]

lemma createChunk_png_filename (s W H : Nat) (col row : Nat) :
    (createChunk s W H "png" col row).filename = chunkIdStr col row ++ ".png" := by
  rw [(createChunk_fields s W H "png" col row).2.2.2.2.2.2.2, string_dot_png]

lemma jsReplace_createChunk_png (s W H : Nat) (col row : Nat) :
    jsReplace (createChunk s W H "png" col row).filename ".png" ".ktx2" =
      chunkIdStr col row ++ ".ktx2" := by
  rw [createChunk_png_filename]
  exact jsReplace_png_ext _ (dot_notMem_chunkIdStr col row)

lemma compressLoop_conversions (conv : String → String → ConversionResult)
    (a b : String) (l : List ChunkMetadata) :
    (compressLoop conv a b l).conversions = l.map fun ch =>
      conv (pathJoin a ch.filename)
        (pathJoin b (jsReplace ch.filename ".png" ".ktx2")) := by
  induction l with
  | nil => rfl
  | cons ch rest ih => simp [compressLoop, ih]

lemma compressLoop_chunks (conv : String → String → ConversionResult)
    (a b : String) (l : List ChunkMetadata) :
    (compressLoop conv a b l).chunks = l.map fun ch =>
      if (conv (pathJoin a ch.filename)
          (pathJoin b (jsReplace ch.filename ".png" ".ktx2"))).success
      then { ch with filename := jsReplace ch.filename ".png" ".ktx2" }
      else ch := by
  induction l with
  | nil => rfl
  | cons ch rest ih => simp [compressLoop, ih]

lemma compressLoop_tos (conv : String → String → ConversionResult)
    (a b : String) (l : List ChunkMetadata) :
    (compressLoop conv a b l).totalOriginalSize =
      ((compressLoop conv a b l).conversions.map fun r =>
        if r.success then r.originalSize else 0).sum := by
  induction l with
  | nil => rfl
  | cons ch rest ih => simp [compressLoop, ih]

lemma compressLoop_tcs (conv : String → String → ConversionResult)
    (a b : String) (l : List ChunkMetadata) :
    (compressLoop conv a b l).totalCompressedSize =
      ((compressLoop conv a b l).conversions.map fun r =>
        if r.success then r.compressedSize else 0).sum := by
  induction l with
  | nil => rfl
  | cons ch rest ih => simp [compressLoop, ih]

lemma chunkImage_ok (W H : Nat) (S : Int) (fmt dir : String)
    (hW : W ≠ 0) (hH : H ≠ 0) :
    chunkImage W H S fmt dir =
      (Except.ok (chunkMd W H S fmt),
        FsEvent.mkdir dir ::
          ((chunkMd W H S fmt).chunks.map fun c =>
            FsEvent.writeFile (pathJoin dir c.filename)) ++
          [FsEvent.writeManifest (pathJoin dir "metadata.json")
            (chunkMd W H S fmt)]) := by
  unfold chunkImage
  rw [if_neg (by simp [hW, hH])]

/-- The aggregate report of a successful run, exactly as the
orchestrator builds it. -/
def processPure (conv : String → String → ConversionResult)
    (outputDir : String) (W H : Nat) (S : Int) : ProcessResult :=
  let acc := compressLoop conv (pathJoin outputDir "chunks_temp")
    (pathJoin outputDir "chunks") (chunkMd W H S "png").chunks
  { metadata :=
      { chunkMd W H S "png" with chunks := acc.chunks, format := "ktx2" },
    conversions := acc.conversions,
    totalOriginalSize := acc.totalOriginalSize,
    totalCompressedSize := acc.totalCompressedSize,
    totalSaved :=
      (acc.totalOriginalSize : Int) - (acc.totalCompressedSize : Int),
    compressionRatio := jsRatio acc.totalCompressedSize acc.totalOriginalSize }

/-- The event trace of a successful run. -/
def processTraceOf (conv : String → String → ConversionResult)
    (outputDir : String) (W H : Nat) (S : Int) : List FsEvent :=
  (FsEvent.mkdir (pathJoin outputDir "chunks_temp") ::
    ((chunkMd W H S "png").chunks.map fun c =>
      FsEvent.writeFile (pathJoin (pathJoin outputDir "chunks_temp") c.filename)) ++
    [FsEvent.writeManifest
      (pathJoin (pathJoin outputDir "chunks_temp") "metadata.json")
      (chunkMd W H S "png")]) ++
  [FsEvent.mkdir (pathJoin outputDir "chunks")] ++
  [FsEvent.rmTree (pathJoin outputDir "chunks_temp"),
   FsEvent.writeManifest (pathJoin (pathJoin outputDir "chunks") "metadata.json")
     (processPure conv outputDir W H S).metadata]

lemma process_ok_eq (conv : String → String → ConversionResult)
    (outputDir : String) (W H : Nat) (S : Int) (hW : W ≠ 0) (hH : H ≠ 0) :
    processMapToKTX2 conv (Except.ok ()) outputDir W H S =
      (Except.ok (processPure conv outputDir W H S),
        processTraceOf conv outputDir W H S) := by
  unfold processMapToKTX2 processPure processTraceOf
  rw [chunkImage_ok W H S "png" (pathJoin outputDir "chunks_temp") hW hH]
  rfl

lemma process_rm_error (conv : String → String → ConversionResult)
    (outputDir : String) (W H : Nat) (S : Int) (e : String)
    (hW : W ≠ 0) (hH : H ≠ 0) :
    (processMapToKTX2 conv (Except.error e) outputDir W H S).fst =
      Except.error e := by
  unfold processMapToKTX2
  rw [chunkImage_ok W H S "png" (pathJoin outputDir "chunks_temp") hW hH]

/-- A conversion oracle that always succeeds (used in concrete runs). -/
def convAlwaysOk : String → String → ConversionResult := fun a b =>
  { success := true, inputFile := a, outputFile := b, originalSize := 100,
    compressedSize := 40, compressionRatio := jsRatio 40 100, mode := "etc1s",
    duration := 1, error := none }

/-- A conversion oracle that always fails (used in concrete runs). -/
def convAlwaysFail : String → String → ConversionResult := fun a b =>
  { success := false, inputFile := a, outputFile := b, originalSize := 0,
    compressedSize := 0, compressionRatio := some 0, mode := "etc1s",
    duration := 2, error := some "Command failed: toktx" }

/-- A conversion oracle failing on exactly one tile (used in concrete
runs). -/
def convMixed : String → String → ConversionResult := fun a b =>
  if a = pathJoin (pathJoin "out" "chunks_temp") "1_0.png" then
    convAlwaysFail a b
  else convAlwaysOk a b

/-- C1: for positive totalWidth `W`, totalHeight `H` and tileSize `s`,
the partition succeeds and produces exactly ceil(W/s) * ceil(H/s)
regions; the region of grid cell (col, row) sits at row-major index
`row * columns + col` and has pixelX = col * s, pixelY = row * s,
width = min s (W - pixelX) and height = min s (H - pixelY); when
W ≤ s and H ≤ s the region list is a single region covering the full
image. -/
theorem C1_grid_partition (W H s : Nat) (fmt dir : String)
    (hW : 0 < W) (hH : 0 < H) (hs : 0 < s) :
    ∃ md, (chunkImage W H (s : Int) fmt dir).fst = Except.ok md ∧
      md.chunks.length = natCeilDiv W s * natCeilDiv H s ∧
      (∀ col row, col < natCeilDiv W s → row < natCeilDiv H s →
        md.chunks[row * natCeilDiv W s + col]? =
          some (createChunk s W H fmt col row)) ∧
      (∀ col row,
        (createChunk s W H fmt col row).pixelX = col * s ∧
        (createChunk s W H fmt col row).pixelY = row * s ∧
        (createChunk s W H fmt col row).width = min s (W - col * s) ∧
        (createChunk s W H fmt col row).height = min s (H - row * s)) ∧
      (W ≤ s → H ≤ s →
        md.chunks = [createChunk s W H fmt 0 0] ∧
        (createChunk s W H fmt 0 0).pixelX = 0 ∧
        (createChunk s W H fmt 0 0).pixelY = 0 ∧
        (createChunk s W H fmt 0 0).width = W ∧
        (createChunk s W H fmt 0 0).height = H) := by
  refine ⟨chunkMd W H (s : Int) fmt, ?_, ?_, ?_, ?_, ?_⟩
  · rw [chunkImage_ok W H (s : Int) fmt dir (by omega) (by omega)]
  · show (chunkGrid W H (s : Int) fmt).length = _
    rw [chunkGrid_length W H s fmt hs]
    exact Nat.mul_comm _ _
  · intro col row hcol hrow
    show (chunkGrid W H (s : Int) fmt)[row * natCeilDiv W s + col]? = _
    have hi : row * natCeilDiv W s + col < natCeilDiv H s * natCeilDiv W s :=
      index_lt hrow hcol
    rw [chunkGrid_getElem W H s fmt hs hi, rowcol_mod hcol, rowcol_div hcol]
  · intro col row
    exact ⟨rfl, rfl, rfl, rfl⟩
  · intro hWs hHs
    have hcW : natCeilDiv W s = 1 :=
      Nat.div_eq_of_lt_le (by omega) (by omega)
    have hcH : natCeilDiv H s = 1 :=
      Nat.div_eq_of_lt_le (by omega) (by omega)
    refine ⟨?_, ?_, ?_, ?_, ?_⟩
    · show chunkGrid W H (s : Int) fmt = _
      rw [chunkGrid_map W H s fmt hs, hcW, hcH]
      simp [show List.range 1 = [0] from rfl]
    · show (0 : Nat) * s = 0
      omega
    · show (0 : Nat) * s = 0
      omega
    · show min s (W - 0 * s) = W
      omega
    · show min s (H - 0 * s) = H
      omega

theorem C1_witness : 0 < 3 ∧ 0 < 2 ∧ 0 < 2 ∧
    (∃ md, (chunkImage 3 2 ((2 : Nat) : Int) "png" "out").fst = Except.ok md ∧
      md.chunks.length = natCeilDiv 3 2 * natCeilDiv 2 2 ∧
      (∀ col row, col < natCeilDiv 3 2 → row < natCeilDiv 2 2 →
        md.chunks[row * natCeilDiv 3 2 + col]? =
          some (createChunk 2 3 2 "png" col row)) ∧
      (∀ col row,
        (createChunk 2 3 2 "png" col row).pixelX = col * 2 ∧
        (createChunk 2 3 2 "png" col row).pixelY = row * 2 ∧
        (createChunk 2 3 2 "png" col row).width = min 2 (3 - col * 2) ∧
        (createChunk 2 3 2 "png" col row).height = min 2 (2 - row * 2)) ∧
      (3 ≤ 2 → 2 ≤ 2 →
        md.chunks = [createChunk 2 3 2 "png" 0 0] ∧
        (createChunk 2 3 2 "png" 0 0).pixelX = 0 ∧
        (createChunk 2 3 2 "png" 0 0).pixelY = 0 ∧
        (createChunk 2 3 2 "png" 0 0).width = 3 ∧
        (createChunk 2 3 2 "png" 0 0).height = 2)) :=
  ⟨by decide, by decide, by decide,
    C1_grid_partition 3 2 2 "png" "out" (by decide) (by decide) (by decide)⟩

/-- C5 counterexample: a negative tileSize is not rejected.  With
dimensions 4x4 and tileSize -1 the partition succeeds, returning an
empty chunk list and negative grid counts, refuting that a non-positive
tileSize raises an IllegalArgument error. -/
theorem C5_counterexample :
    (chunkImage 4 4 (-1) "png" "out").fst =
      Except.ok
        { version := 1, totalWidth := 4, totalHeight := 4, chunkWidth := -1,
          chunkHeight := -1, chunksX := -4, chunksY := -4, chunks := [],
          format := "png" } := by
  rfl

/-- C5 amended: the partition fails iff the image width or height reads
as zero (the JS falsiness check on the decoded metadata); the tile size
is never validated, and the failure is raised only after the mkdir and
the image-metadata read, so not before I/O: the event trace always
starts with the mkdir. -/
theorem C5_validation (W H : Nat) (S : Int) (fmt dir : String) (_hS : S ≠ 0) :
    ((∃ md, (chunkImage W H S fmt dir).fst = Except.ok md) ↔
      (W ≠ 0 ∧ H ≠ 0)) ∧
    (chunkImage W H S fmt dir).snd.head? = some (FsEvent.mkdir dir) := by
  constructor
  · constructor
    · rintro ⟨md, hmd⟩
      by_contra hc
      have h0 : W = 0 ∨ H = 0 := by tauto
      unfold chunkImage at hmd
      rw [if_pos h0] at hmd
      exact Except.noConfusion hmd
    · rintro ⟨hW, hH⟩
      exact ⟨_, by rw [chunkImage_ok W H S fmt dir hW hH]⟩
  · unfold chunkImage
    by_cases h : W = 0 ∨ H = 0
    · rw [if_pos h]
      rfl
    · rw [if_neg h]
      rfl

theorem C5_witness : ((2 : Int) ≠ 0) ∧
    (((∃ md, (chunkImage 3 2 2 "png" "out").fst = Except.ok md) ↔
      ((3 : Nat) ≠ 0 ∧ (2 : Nat) ≠ 0)) ∧
    (chunkImage 3 2 2 "png" "out").snd.head? = some (FsEvent.mkdir "out")) :=
  ⟨by decide, C5_validation 3 2 2 "png" "out" (by decide)⟩

/-- C6: whenever any step of convertFile fails (missing input, stat
failure, subprocess failure, missing output), the operation returns,
never raises, an outcome with success = false, originalSize = 0,
compressedSize = 0, compressionRatio = 0 and the failure's message as
the error description. -/
theorem C6_convert_failure (env : FsEnv) (mode inputPath : String)
    (outputPath : Option String) (duration : Nat) (e : String)
    (he : convertSteps env = Except.error e) :
    convertFile env mode inputPath outputPath duration =
      { success := false, inputFile := inputPath,
        outputFile := outputPath.getD (ktx2Name inputPath),
        originalSize := 0, compressedSize := 0, compressionRatio := some 0,
        mode := mode, duration := duration, error := some e } := by
  unfold convertFile
  rw [he]

/-- A convertFile environment where the toktx subprocess fails. -/
def envExecFail : FsEnv :=
  { access := Except.ok (), statIn := Except.ok 2048,
    exec := Except.error "Command failed: toktx", statOut := Except.ok 0 }

theorem C6_witness :
    convertSteps envExecFail = Except.error "Command failed: toktx" ∧
    convertFile envExecFail "etc1s" "0_0.png" (some "0_0.ktx2") 5 =
      { success := false, inputFile := "0_0.png",
        outputFile := (some "0_0.ktx2").getD (ktx2Name "0_0.png"),
        originalSize := 0, compressedSize := 0, compressionRatio := some 0,
        mode := "etc1s", duration := 5,
        error := some "Command failed: toktx" } :=
  ⟨rfl, C6_convert_failure envExecFail "etc1s" "0_0.png" (some "0_0.ktx2") 5
    "Command failed: toktx" rfl⟩

/-- C8 counterexample: a run whose every compression succeeds but whose
temp-directory cleanup fails rejects with the cleanup error; the
aggregate report is not returned at all, refuting that its data is still
returned with a warning attached. -/
theorem C8_counterexample :
    (processMapToKTX2 convAlwaysOk (Except.error "EACCES: permission denied")
      "out" 1 1 1).fst = Except.error "EACCES: permission denied" := by
  rfl

/-- C8 amended: when the temp-directory cleanup fails, processMapToKTX2
propagates the cleanup error to the caller; no ProcessResult (which has
no warning field) is returned. -/
theorem C8_cleanup_failure (conv : String → String → ConversionResult)
    (outputDir : String) (W H : Nat) (S : Int) (e : String)
    (hW : W ≠ 0) (hH : H ≠ 0) :
    (processMapToKTX2 conv (Except.error e) outputDir W H S).fst =
      Except.error e ∧
    ∀ res : ProcessResult,
      (processMapToKTX2 conv (Except.error e) outputDir W H S).fst ≠
        Except.ok res := by
  have h := process_rm_error conv outputDir W H S e hW hH
  refine ⟨h, fun res hres => ?_⟩
  rw [h] at hres
  exact Except.noConfusion hres

theorem C8_witness : ((1 : Nat) ≠ 0) ∧
    ((processMapToKTX2 convAlwaysFail (Except.error "EACCES") "d" 1 1 2).fst =
      Except.error "EACCES" ∧
    ∀ res : ProcessResult,
      (processMapToKTX2 convAlwaysFail (Except.error "EACCES") "d" 1 1 2).fst ≠
        Except.ok res) :=
  ⟨by decide,
    C8_cleanup_failure convAlwaysFail "d" 1 1 2 "EACCES" (by decide) (by decide)⟩

/-- C9: when every tile's compression fails, both running totals stay 0
and the report's compressionRatio is the unguarded (1 - 0/0) * 100 — the
non-finite NaN value, `none` in this model — because no check that
totalOriginalSize is positive exists. -/
theorem C9_all_fail_nan (conv : String → String → ConversionResult)
    (outputDir : String) (W H : Nat) (S : Int)
    (hfail : ∀ a b, (conv a b).success = false) (hW : W ≠ 0) (hH : H ≠ 0) :
    ∃ res, (processMapToKTX2 conv (Except.ok ()) outputDir W H S).fst =
        Except.ok res ∧
      res.totalOriginalSize = 0 ∧ res.totalCompressedSize = 0 ∧
      res.totalSaved = 0 ∧ res.compressionRatio = none := by
  have htos : (compressLoop conv (pathJoin outputDir "chunks_temp")
      (pathJoin outputDir "chunks")
      (chunkMd W H S "png").chunks).totalOriginalSize = 0 := by
    rw [compressLoop_tos]
    apply List.sum_eq_zero
    intro x hx
    rcases List.mem_map.mp hx with ⟨r, hr, rfl⟩
    rw [compressLoop_conversions] at hr
    rcases List.mem_map.mp hr with ⟨ch, _, rfl⟩
    simp [hfail]
  have htcs : (compressLoop conv (pathJoin outputDir "chunks_temp")
      (pathJoin outputDir "chunks")
      (chunkMd W H S "png").chunks).totalCompressedSize = 0 := by
    rw [compressLoop_tcs]
    apply List.sum_eq_zero
    intro x hx
    rcases List.mem_map.mp hx with ⟨r, hr, rfl⟩
    rw [compressLoop_conversions] at hr
    rcases List.mem_map.mp hr with ⟨ch, _, rfl⟩
    simp [hfail]
  refine ⟨processPure conv outputDir W H S, ?_, ?_, ?_, ?_, ?_⟩
  · rw [process_ok_eq conv outputDir W H S hW hH]
  · exact htos
  · exact htcs
  · show ((compressLoop conv (pathJoin outputDir "chunks_temp")
        (pathJoin outputDir "chunks")
        (chunkMd W H S "png").chunks).totalOriginalSize : Int) -
      ((compressLoop conv (pathJoin outputDir "chunks_temp")
        (pathJoin outputDir "chunks")
        (chunkMd W H S "png").chunks).totalCompressedSize : Int) = 0
    rw [htos, htcs]
    rfl
  · show jsRatio (compressLoop conv (pathJoin outputDir "chunks_temp")
        (pathJoin outputDir "chunks")
        (chunkMd W H S "png").chunks).totalCompressedSize
      (compressLoop conv (pathJoin outputDir "chunks_temp")
        (pathJoin outputDir "chunks")
        (chunkMd W H S "png").chunks).totalOriginalSize = none
    rw [htos, htcs]
    rfl

theorem C9_witness : (∀ a b, (convAlwaysFail a b).success = false) ∧
    (∃ res, (processMapToKTX2 convAlwaysFail (Except.ok ()) "out" 2 1 1).fst =
        Except.ok res ∧
      res.totalOriginalSize = 0 ∧ res.totalCompressedSize = 0 ∧
      res.totalSaved = 0 ∧ res.compressionRatio = none) :=
  ⟨fun _ _ => rfl,
    C9_all_fail_nan convAlwaysFail "out" 2 1 1 (fun _ _ => rfl)
      (by decide) (by decide)⟩

lemma chunkMd_chunks (W H : Nat) (S : Int) (fmt : String) :
    (chunkMd W H S fmt).chunks = chunkGrid W H S fmt := rfl

lemma chunkGrid_mem {W H : Nat} {S : Int} {fmt : String} {c : ChunkMetadata}
    (h : c ∈ chunkGrid W H S fmt) :
    ∃ col row, c = createChunk S.toNat W H fmt col row := by
  unfold chunkGrid at h
  rcases List.mem_flatMap.mp h with ⟨row, _, hrow⟩
  rcases List.mem_map.mp hrow with ⟨col, _, rfl⟩
  exact ⟨col, row, rfl⟩

/-- C2: the regions of a grid are pairwise disjoint and cover the W x H
image exactly: every pixel of the image lies in exactly one region, and
the total area of the regions is W * H. -/
theorem C2_partition_tiles (W H s : Nat) (fmt dir : String)
    (hW : 0 < W) (hH : 0 < H) (hs : 0 < s) (md : ChunkedMapMetadata)
    (hmd : (chunkImage W H (s : Int) fmt dir).fst = Except.ok md) :
    (∀ (i j : Nat) (ci cj : ChunkMetadata),
      md.chunks[i]? = some ci → md.chunks[j]? = some cj →
      i ≠ j → ∀ x y, memPixel ci x y → ¬ memPixel cj x y) ∧
    (∀ x y, x < W → y < H →
      ∃! i : Nat, ∃ c : ChunkMetadata,
        md.chunks[i]? = some c ∧ memPixel c x y) ∧
    ((md.chunks.map fun c => c.width * c.height).sum = W * H) := by
  rw [chunkImage_ok W H (s : Int) fmt dir (by omega) (by omega)] at hmd
  injection hmd with hmd2
  subst hmd2
  refine ⟨?_, ?_, ?_⟩
  · intro i j ci cj hci hcj hij x y hmi hmj
    rw [chunkMd_chunks] at hci hcj
    obtain ⟨hiB, rfl⟩ := chunkGrid_elem_inv W H s fmt hs hci
    obtain ⟨hjB, rfl⟩ := chunkGrid_elem_inv W H s fmt hs hcj
    have hcolpos : 0 < natCeilDiv W s := by
      by_contra hc
      have h0 : natCeilDiv W s = 0 := by omega
      rw [h0, Nat.mul_zero] at hiB
      omega
    have hic : i % natCeilDiv W s < natCeilDiv W s := Nat.mod_lt _ hcolpos
    have hir : i / natCeilDiv W s < natCeilDiv H s :=
      (Nat.div_lt_iff_lt_mul hcolpos).mpr hiB
    have hjc : j % natCeilDiv W s < natCeilDiv W s := Nat.mod_lt _ hcolpos
    have hjr : j / natCeilDiv W s < natCeilDiv H s :=
      (Nat.div_lt_iff_lt_mul hcolpos).mpr hjB
    rw [memPixel_createChunk fmt hs hic hir] at hmi
    rw [memPixel_createChunk fmt hs hjc hjr] at hmj
    apply hij
    have e1 := Nat.div_add_mod i (natCeilDiv W s)
    have e2 := Nat.div_add_mod j (natCeilDiv W s)
    have hmodEq : i % natCeilDiv W s = j % natCeilDiv W s :=
      hmi.1.symm.trans hmj.1
    have hdivEq : i / natCeilDiv W s = j / natCeilDiv W s :=
      hmi.2.1.symm.trans hmj.2.1
    rw [← e1, ← e2, hmodEq, hdivEq]
  · intro x y hx hy
    have hcol : x / s < natCeilDiv W s := div_lt_natCeilDiv hs hx
    have hrow : y / s < natCeilDiv H s := div_lt_natCeilDiv hs hy
    have hi : (y / s) * natCeilDiv W s + x / s <
        natCeilDiv H s * natCeilDiv W s := index_lt hrow hcol
    refine ⟨(y / s) * natCeilDiv W s + x / s,
      ⟨createChunk s W H fmt (x / s) (y / s), ?_, ?_⟩, ?_⟩
    · rw [chunkMd_chunks,
        chunkGrid_getElem W H s fmt hs hi, rowcol_mod hcol, rowcol_div hcol]
    · rw [memPixel_createChunk fmt hs hcol hrow]
      exact ⟨rfl, rfl, hx, hy⟩
    · rintro j ⟨c, hcj, hmemj⟩
      rw [chunkMd_chunks] at hcj
      obtain ⟨hjB, rfl⟩ := chunkGrid_elem_inv W H s fmt hs hcj
      have hcolpos : 0 < natCeilDiv W s :=
        lt_of_le_of_lt (Nat.zero_le _) hcol
      have hjc : j % natCeilDiv W s < natCeilDiv W s := Nat.mod_lt _ hcolpos
      have hjr : j / natCeilDiv W s < natCeilDiv H s :=
        (Nat.div_lt_iff_lt_mul hcolpos).mpr hjB
      rw [memPixel_createChunk fmt hs hjc hjr] at hmemj
      have e2 := Nat.div_add_mod j (natCeilDiv W s)
      rw [← e2, ← hmemj.1, ← hmemj.2.1]
      ring
  · rw [chunkMd_chunks]
    exact chunkGrid_area W H s fmt hs

theorem C2_witness : 0 < 3 ∧ 0 < 2 ∧ 0 < 2 ∧
    ∃ md, (chunkImage 3 2 ((2 : Nat) : Int) "png" "out").fst = Except.ok md ∧
    ((∀ (i j : Nat) (ci cj : ChunkMetadata),
      md.chunks[i]? = some ci → md.chunks[j]? = some cj →
      i ≠ j → ∀ x y, memPixel ci x y → ¬ memPixel cj x y) ∧
    (∀ x y, x < 3 → y < 2 →
      ∃! i : Nat, ∃ c : ChunkMetadata,
        md.chunks[i]? = some c ∧ memPixel c x y) ∧
    ((md.chunks.map fun c => c.width * c.height).sum = 3 * 2)) := by
  obtain ⟨md, hmd⟩ : ∃ md,
      (chunkImage 3 2 ((2 : Nat) : Int) "png" "out").fst = Except.ok md :=
    ⟨_, rfl⟩
  exact ⟨by decide, by decide, by decide, md, hmd,
    C2_partition_tiles 3 2 2 "png" "out" (by decide) (by decide) (by decide)
      md hmd⟩

/-- C3: in a successful run, one outcome is accumulated per manifest
tile, in manifest order; the totals sum exactly the successful
outcomes' original and compressed sizes; a successful tile's manifest
entry has its .png extension rewritten to .ktx2, a failed tile's entry
is left unchanged; and totalSaved and compressionRatio satisfy the
aggregate formulas. -/
theorem C3_compress_phase (conv : String → String → ConversionResult)
    (outputDir : String) (W H : Nat) (S : Int)
    (res : ProcessResult) (trace : List FsEvent)
    (h : processMapToKTX2 conv (Except.ok ()) outputDir W H S =
      (Except.ok res, trace))
    (mdI : ChunkedMapMetadata) (trI : List FsEvent)
    (hI : chunkImage W H S "png" (pathJoin outputDir "chunks_temp") =
      (Except.ok mdI, trI)) :
    res.conversions = mdI.chunks.map (fun ch =>
      conv (pathJoin (pathJoin outputDir "chunks_temp") ch.filename)
        (pathJoin (pathJoin outputDir "chunks")
          (jsReplace ch.filename ".png" ".ktx2"))) ∧
    res.totalOriginalSize =
      (res.conversions.map fun r =>
        if r.success then r.originalSize else 0).sum ∧
    res.totalCompressedSize =
      (res.conversions.map fun r =>
        if r.success then r.compressedSize else 0).sum ∧
    res.metadata.chunks.length = mdI.chunks.length ∧
    (∀ (i : Nat) (ch : ChunkMetadata) (r : ConversionResult),
      mdI.chunks[i]? = some ch → res.conversions[i]? = some r →
      res.metadata.chunks[i]? =
        some (if r.success then
          { ch with filename := jsReplace ch.filename ".png" ".ktx2" }
        else ch)) ∧
    (∀ (i : Nat) (ch : ChunkMetadata), mdI.chunks[i]? = some ch →
      ch.filename = ch.id ++ ".png" ∧
      jsReplace ch.filename ".png" ".ktx2" = ch.id ++ ".ktx2") ∧
    res.totalSaved =
      (res.totalOriginalSize : Int) - (res.totalCompressedSize : Int) ∧
    (res.totalOriginalSize ≠ 0 →
      res.compressionRatio =
        some ((1 - (res.totalCompressedSize : ℚ) /
          (res.totalOriginalSize : ℚ)) * 100)) := by
  have hWH : ¬(W = 0 ∨ H = 0) := by
    intro hc
    unfold chunkImage at hI
    rw [if_pos hc] at hI
    have h2 := congrArg Prod.fst hI
    exact Except.noConfusion h2
  have hW : W ≠ 0 := fun h0 => hWH (Or.inl h0)
  have hH : H ≠ 0 := fun h0 => hWH (Or.inr h0)
  rw [chunkImage_ok W H S "png" (pathJoin outputDir "chunks_temp") hW hH] at hI
  have hmdI : mdI = chunkMd W H S "png" := by
    have h2 := congrArg Prod.fst hI
    simp only [Except.ok.injEq] at h2
    exact h2.symm
  rw [process_ok_eq conv outputDir W H S hW hH] at h
  have hres : res = processPure conv outputDir W H S := by
    have h2 := congrArg Prod.fst h
    simp only [Except.ok.injEq] at h2
    exact h2.symm
  subst hmdI hres
  refine ⟨?_, ?_, ?_, ?_, ?_, ?_, ?_, ?_⟩
  · exact compressLoop_conversions conv _ _ _
  · exact compressLoop_tos conv _ _ _
  · exact compressLoop_tcs conv _ _ _
  · show (compressLoop conv (pathJoin outputDir "chunks_temp")
        (pathJoin outputDir "chunks")
        (chunkMd W H S "png").chunks).chunks.length = _
    rw [compressLoop_chunks]
    exact List.length_map _ _
  · intro i ch r hch hr
    have hr2 : ((chunkMd W H S "png").chunks.map fun ch =>
        conv (pathJoin (pathJoin outputDir "chunks_temp") ch.filename)
          (pathJoin (pathJoin outputDir "chunks")
            (jsReplace ch.filename ".png" ".ktx2")))[i]? = some r := by
      rw [← compressLoop_conversions conv (pathJoin outputDir "chunks_temp")
        (pathJoin outputDir "chunks") (chunkMd W H S "png").chunks]
      exact hr
    rw [List.getElem?_map, hch, Option.map_some'] at hr2
    have hreq := Option.some_inj.mp hr2
    show (compressLoop conv (pathJoin outputDir "chunks_temp")
        (pathJoin outputDir "chunks")
        (chunkMd W H S "png").chunks).chunks[i]? = _
    rw [compressLoop_chunks, List.getElem?_map, hch, Option.map_some', hreq]
  · intro i ch hch
    have hmem : ch ∈ (chunkMd W H S "png").chunks := List.getElem?_mem hch
    rw [chunkMd_chunks] at hmem
    obtain ⟨col, row, rfl⟩ := chunkGrid_mem hmem
    exact ⟨createChunk_png_filename S.toNat W H col row,
      jsReplace_createChunk_png S.toNat W H col row⟩
  · rfl
  · intro hne
    have hne2 : (compressLoop conv (pathJoin outputDir "chunks_temp")
        (pathJoin outputDir "chunks")
        (chunkMd W H S "png").chunks).totalOriginalSize ≠ 0 := hne
    show jsRatio (compressLoop conv (pathJoin outputDir "chunks_temp")
        (pathJoin outputDir "chunks")
        (chunkMd W H S "png").chunks).totalCompressedSize
      (compressLoop conv (pathJoin outputDir "chunks_temp")
        (pathJoin outputDir "chunks")
        (chunkMd W H S "png").chunks).totalOriginalSize = _
    unfold jsRatio
    rw [if_neg hne2]
    rfl

theorem C3_witness : ∃ res trace mdI trI,
    processMapToKTX2 convMixed (Except.ok ()) "out" 3 2 2 =
      (Except.ok res, trace) ∧
    chunkImage 3 2 2 "png" (pathJoin "out" "chunks_temp") =
      (Except.ok mdI, trI) ∧
    (res.conversions = mdI.chunks.map (fun ch =>
      convMixed (pathJoin (pathJoin "out" "chunks_temp") ch.filename)
        (pathJoin (pathJoin "out" "chunks")
          (jsReplace ch.filename ".png" ".ktx2"))) ∧
    res.totalOriginalSize =
      (res.conversions.map fun r =>
        if r.success then r.originalSize else 0).sum ∧
    res.totalCompressedSize =
      (res.conversions.map fun r =>
        if r.success then r.compressedSize else 0).sum ∧
    res.metadata.chunks.length = mdI.chunks.length ∧
    (∀ (i : Nat) (ch : ChunkMetadata) (r : ConversionResult),
      mdI.chunks[i]? = some ch → res.conversions[i]? = some r →
      res.metadata.chunks[i]? =
        some (if r.success then
          { ch with filename := jsReplace ch.filename ".png" ".ktx2" }
        else ch)) ∧
    (∀ (i : Nat) (ch : ChunkMetadata), mdI.chunks[i]? = some ch →
      ch.filename = ch.id ++ ".png" ∧
      jsReplace ch.filename ".png" ".ktx2" = ch.id ++ ".ktx2") ∧
    res.totalSaved =
      (res.totalOriginalSize : Int) - (res.totalCompressedSize : Int) ∧
    (res.totalOriginalSize ≠ 0 →
      res.compressionRatio =
        some ((1 - (res.totalCompressedSize : ℚ) /
          (res.totalOriginalSize : ℚ)) * 100))) := by
  obtain ⟨res, trace, h⟩ : ∃ res trace,
      processMapToKTX2 convMixed (Except.ok ()) "out" 3 2 2 =
        (Except.ok res, trace) := ⟨_, _, rfl⟩
  obtain ⟨mdI, trI, hI⟩ : ∃ mdI trI,
      chunkImage 3 2 2 "png" (pathJoin "out" "chunks_temp") =
        (Except.ok mdI, trI) := ⟨_, _, rfl⟩
  exact ⟨res, trace, mdI, trI, h, hI,
    C3_compress_phase convMixed "out" 3 2 2 res trace h mdI trI hI⟩

lemma pathJoin_data (a b : String) :
    (pathJoin a b).data = a.data ++ Char.ofNat 47 :: b.data := by
  unfold pathJoin
  rw [String.data_append, String.data_append, List.append_assoc]
  rfl

lemma manifestWrites_map_writeFile (l : List ChunkMetadata)
    (f : ChunkMetadata → String) :
    manifestWrites (l.map fun c => FsEvent.writeFile (f c)) = [] := by
  induction l with
  | nil => rfl
  | cons c t ih =>
    simp only [List.map_cons, manifestWrites, List.filterMap_cons] at ih ⊢
    exact ih

lemma manifestWrites_processTraceOf (conv : String → String → ConversionResult)
    (outputDir : String) (W H : Nat) (S : Int) :
    manifestWrites (processTraceOf conv outputDir W H S) =
      [(pathJoin (pathJoin outputDir "chunks_temp") "metadata.json", "png"),
       (pathJoin (pathJoin outputDir "chunks") "metadata.json", "ktx2")] := by
  have h1 := manifestWrites_map_writeFile (chunkMd W H S "png").chunks
    (fun c => pathJoin (pathJoin outputDir "chunks_temp") c.filename)
  unfold manifestWrites at h1
  unfold processTraceOf manifestWrites
  simp only [List.filterMap_append, List.filterMap_cons, List.filterMap_nil,
    h1]
  rfl

lemma getLast_append_pair {α : Type} (L : List α) (a b : α) :
    (L ++ [a, b]).getLast? = some b := by
  have h : L ++ [a, b] = (L ++ [a]) ++ [b] := by simp
  rw [h, List.getLast?_concat]

/-- C4 counterexample: with outputDir "out" the two manifest persists of
a run target "out/chunks_temp/metadata.json" and then
"out/chunks/metadata.json" — two distinct paths, neither of them the
claimed single well-known file "out/metadata.json". -/
theorem C4_counterexample :
    manifestWrites
        (processMapToKTX2 convAlwaysOk (Except.ok ()) "out" 1 1 1).snd =
      [("out/chunks_temp/metadata.json", "png"),
       ("out/chunks/metadata.json", "ktx2")] ∧
    ("out/chunks_temp/metadata.json" : String) ≠ "out/metadata.json" ∧
    ("out/chunks/metadata.json" : String) ≠ "out/metadata.json" ∧
    ("out/chunks_temp/metadata.json" : String) ≠ "out/chunks/metadata.json" := by
  refine ⟨by decide, by decide, by decide, by decide⟩

/-- C4 corrected: the manifest is persisted exactly twice per successful
run, but to two distinct files: first with format png to
<outputDir>/chunks_temp/metadata.json, then with format ktx2 to
<outputDir>/chunks/metadata.json; neither path is
<outputDir>/metadata.json.  The directory holding the intermediate
manifest is removed by the cleanup step, and the final ktx2 manifest
write is the last filesystem event of the run. -/
theorem C4_manifest_persistence (conv : String → String → ConversionResult)
    (outputDir : String) (W H : Nat) (S : Int)
    (res : ProcessResult) (trace : List FsEvent)
    (h : processMapToKTX2 conv (Except.ok ()) outputDir W H S =
      (Except.ok res, trace)) :
    manifestWrites trace =
      [(pathJoin (pathJoin outputDir "chunks_temp") "metadata.json", "png"),
       (pathJoin (pathJoin outputDir "chunks") "metadata.json", "ktx2")] ∧
    pathJoin (pathJoin outputDir "chunks_temp") "metadata.json" ≠
      pathJoin (pathJoin outputDir "chunks") "metadata.json" ∧
    pathJoin (pathJoin outputDir "chunks_temp") "metadata.json" ≠
      pathJoin outputDir "metadata.json" ∧
    pathJoin (pathJoin outputDir "chunks") "metadata.json" ≠
      pathJoin outputDir "metadata.json" ∧
    FsEvent.rmTree (pathJoin outputDir "chunks_temp") ∈ trace ∧
    trace.getLast? = some (FsEvent.writeManifest
      (pathJoin (pathJoin outputDir "chunks") "metadata.json") res.metadata) ∧
    res.metadata.format = "ktx2" := by
  have hWH : ¬(W = 0 ∨ H = 0) := by
    intro hc
    unfold processMapToKTX2 chunkImage at h
    rw [if_pos hc] at h
    have h2 := congrArg Prod.fst h
    exact Except.noConfusion h2
  have hW : W ≠ 0 := fun h0 => hWH (Or.inl h0)
  have hH : H ≠ 0 := fun h0 => hWH (Or.inr h0)
  rw [process_ok_eq conv outputDir W H S hW hH] at h
  have hres : res = processPure conv outputDir W H S := by
    have h2 := congrArg Prod.fst h
    simp only [Except.ok.injEq] at h2
    exact h2.symm
  have htr : trace = processTraceOf conv outputDir W H S := by
    have h2 := congrArg Prod.snd h
    exact h2.symm
  subst hres htr
  refine ⟨manifestWrites_processTraceOf conv outputDir W H S, ?_, ?_, ?_, ?_,
    ?_, rfl⟩
  · intro hEq
    have hd := congrArg String.data hEq
    rw [pathJoin_data, pathJoin_data, pathJoin_data, pathJoin_data,
      List.append_assoc, List.append_assoc] at hd
    have h2 := List.append_cancel_left hd
    exact absurd h2 (by decide)
  · intro hEq
    have hd := congrArg String.data hEq
    rw [pathJoin_data, pathJoin_data, pathJoin_data,
      List.append_assoc] at hd
    have h2 := List.append_cancel_left hd
    exact absurd h2 (by decide)
  · intro hEq
    have hd := congrArg String.data hEq
    rw [pathJoin_data, pathJoin_data, pathJoin_data,
      List.append_assoc] at hd
    have h2 := List.append_cancel_left hd
    exact absurd h2 (by decide)
  · unfold processTraceOf
    simp [List.mem_append]
  · exact getLast_append_pair _ _ _

theorem C4_witness : ∃ res trace,
    processMapToKTX2 convAlwaysFail (Except.ok ()) "o2" 2 2 2 =
      (Except.ok res, trace) ∧
    (manifestWrites trace =
      [(pathJoin (pathJoin "o2" "chunks_temp") "metadata.json", "png"),
       (pathJoin (pathJoin "o2" "chunks") "metadata.json", "ktx2")] ∧
    pathJoin (pathJoin "o2" "chunks_temp") "metadata.json" ≠
      pathJoin (pathJoin "o2" "chunks") "metadata.json" ∧
    pathJoin (pathJoin "o2" "chunks_temp") "metadata.json" ≠
      pathJoin "o2" "metadata.json" ∧
    pathJoin (pathJoin "o2" "chunks") "metadata.json" ≠
      pathJoin "o2" "metadata.json" ∧
    FsEvent.rmTree (pathJoin "o2" "chunks_temp") ∈ trace ∧
    trace.getLast? = some (FsEvent.writeManifest
      (pathJoin (pathJoin "o2" "chunks") "metadata.json") res.metadata) ∧
    res.metadata.format = "ktx2") := by
  obtain ⟨res, trace, h⟩ : ∃ res trace,
      processMapToKTX2 convAlwaysFail (Except.ok ()) "o2" 2 2 2 =
        (Except.ok res, trace) := ⟨_, _, rfl⟩
  exact ⟨res, trace, h,
    C4_manifest_persistence convAlwaysFail "o2" 2 2 2 res trace h⟩

/-- C7: the partition emits regions in row-major order — the manifest
entry at index i is the region of grid cell (i mod columns,
i div columns), equivalently index = y * columns + x — and the
orchestrator's outcome sequence is exactly the compressor applied to
the manifest entries in that same order, index-aligned with them. -/
theorem C7_row_major_order (conv : String → String → ConversionResult)
    (outputDir : String) (W H s : Nat) (hs : 0 < s)
    (res : ProcessResult) (trace : List FsEvent)
    (h : processMapToKTX2 conv (Except.ok ()) outputDir W H (s : Int) =
      (Except.ok res, trace))
    (mdI : ChunkedMapMetadata) (trI : List FsEvent)
    (hI : chunkImage W H (s : Int) "png" (pathJoin outputDir "chunks_temp") =
      (Except.ok mdI, trI)) :
    (∀ (i : Nat) (c : ChunkMetadata), mdI.chunks[i]? = some c →
      c.x = i % natCeilDiv W s ∧ c.y = i / natCeilDiv W s ∧
      i = c.y * natCeilDiv W s + c.x) ∧
    res.conversions = mdI.chunks.map (fun ch =>
      conv (pathJoin (pathJoin outputDir "chunks_temp") ch.filename)
        (pathJoin (pathJoin outputDir "chunks")
          (jsReplace ch.filename ".png" ".ktx2"))) ∧
    res.conversions.length = mdI.chunks.length ∧
    res.metadata.chunks.length = mdI.chunks.length := by
  have hWH : ¬(W = 0 ∨ H = 0) := by
    intro hc
    unfold chunkImage at hI
    rw [if_pos hc] at hI
    have h2 := congrArg Prod.fst hI
    exact Except.noConfusion h2
  have hW : W ≠ 0 := fun h0 => hWH (Or.inl h0)
  have hH : H ≠ 0 := fun h0 => hWH (Or.inr h0)
  rw [chunkImage_ok W H (s : Int) "png" (pathJoin outputDir "chunks_temp")
    hW hH] at hI
  have hmdI : mdI = chunkMd W H (s : Int) "png" := by
    have h2 := congrArg Prod.fst hI
    simp only [Except.ok.injEq] at h2
    exact h2.symm
  rw [process_ok_eq conv outputDir W H (s : Int) hW hH] at h
  have hres : res = processPure conv outputDir W H (s : Int) := by
    have h2 := congrArg Prod.fst h
    simp only [Except.ok.injEq] at h2
    exact h2.symm
  subst hmdI hres
  refine ⟨?_, ?_, ?_, ?_⟩
  · intro i c hc
    rw [chunkMd_chunks] at hc
    obtain ⟨hiB, rfl⟩ := chunkGrid_elem_inv W H s "png" hs hc
    refine ⟨rfl, rfl, ?_⟩
    show i = i / natCeilDiv W s * natCeilDiv W s + i % natCeilDiv W s
    have e := Nat.div_add_mod i (natCeilDiv W s)
    have h3 : i / natCeilDiv W s * natCeilDiv W s =
        natCeilDiv W s * (i / natCeilDiv W s) := Nat.mul_comm _ _
    rw [h3]
    omega
  · exact compressLoop_conversions conv _ _ _
  · show (compressLoop conv (pathJoin outputDir "chunks_temp")
        (pathJoin outputDir "chunks")
        (chunkMd W H (s : Int) "png").chunks).conversions.length = _
    rw [compressLoop_conversions]
    exact List.length_map _ _
  · show (compressLoop conv (pathJoin outputDir "chunks_temp")
        (pathJoin outputDir "chunks")
        (chunkMd W H (s : Int) "png").chunks).chunks.length = _
    rw [compressLoop_chunks]
    exact List.length_map _ _

theorem C7_witness : 0 < 2 ∧ ∃ res trace mdI trI,
    processMapToKTX2 convAlwaysOk (Except.ok ()) "out" 3 2 ((2 : Nat) : Int) =
      (Except.ok res, trace) ∧
    chunkImage 3 2 ((2 : Nat) : Int) "png" (pathJoin "out" "chunks_temp") =
      (Except.ok mdI, trI) ∧
    ((∀ (i : Nat) (c : ChunkMetadata), mdI.chunks[i]? = some c →
      c.x = i % natCeilDiv 3 2 ∧ c.y = i / natCeilDiv 3 2 ∧
      i = c.y * natCeilDiv 3 2 + c.x) ∧
    res.conversions = mdI.chunks.map (fun ch =>
      convAlwaysOk (pathJoin (pathJoin "out" "chunks_temp") ch.filename)
        (pathJoin (pathJoin "out" "chunks")
          (jsReplace ch.filename ".png" ".ktx2"))) ∧
    res.conversions.length = mdI.chunks.length ∧
    res.metadata.chunks.length = mdI.chunks.length) := by
  obtain ⟨res, trace, h⟩ : ∃ res trace,
      processMapToKTX2 convAlwaysOk (Except.ok ()) "out" 3 2
        ((2 : Nat) : Int) = (Except.ok res, trace) := ⟨_, _, rfl⟩
  obtain ⟨mdI, trI, hI⟩ : ∃ mdI trI,
      chunkImage 3 2 ((2 : Nat) : Int) "png" (pathJoin "out" "chunks_temp") =
        (Except.ok mdI, trI) := ⟨_, _, rfl⟩
  exact ⟨by decide, res, trace, mdI, trI, h, hI,
    C7_row_major_order convAlwaysOk "out" 3 2 2 (by decide) res trace h
      mdI trI hI⟩

/-- C10: any two distinct regions of one grid have distinct string
identifiers "col_row" and therefore distinct filenames "col_row.fmt":
no two tiles of one tiling operation are written to the same file. -/
theorem C10_distinct_ids (W H : Nat) (S : Int) (fmt dir : String)
    (hS : 0 < S) (md : ChunkedMapMetadata)
    (hmd : (chunkImage W H S fmt dir).fst = Except.ok md) :
    ∀ (i j : Nat) (ci cj : ChunkMetadata),
      md.chunks[i]? = some ci → md.chunks[j]? = some cj → i ≠ j →
      ci.id ≠ cj.id ∧ ci.filename ≠ cj.filename := by
  obtain ⟨s, rfl⟩ : ∃ s : Nat, S = (s : Int) :=
    ⟨S.toNat, (Int.toNat_of_nonneg (le_of_lt hS)).symm⟩
  have hs : 0 < s := by exact_mod_cast hS
  have hWH : ¬(W = 0 ∨ H = 0) := by
    intro hc
    unfold chunkImage at hmd
    rw [if_pos hc] at hmd
    exact Except.noConfusion hmd
  rw [chunkImage_ok W H (s : Int) fmt dir (fun h0 => hWH (Or.inl h0))
    (fun h0 => hWH (Or.inr h0))] at hmd
  injection hmd with hmd2
  subst hmd2
  intro i j ci cj hci hcj hij
  rw [chunkMd_chunks] at hci hcj
  obtain ⟨hiB, rfl⟩ := chunkGrid_elem_inv W H s fmt hs hci
  obtain ⟨hjB, rfl⟩ := chunkGrid_elem_inv W H s fmt hs hcj
  have hcolpos : 0 < natCeilDiv W s := by
    by_contra hc
    have h0 : natCeilDiv W s = 0 := by omega
    rw [h0, Nat.mul_zero] at hiB
    omega
  have hid : chunkIdStr (i % natCeilDiv W s) (i / natCeilDiv W s) ≠
      chunkIdStr (j % natCeilDiv W s) (j / natCeilDiv W s) := by
    intro hEq
    rcases chunkIdStr_inj hEq with ⟨h1, h2⟩
    apply hij
    have e1 := Nat.div_add_mod i (natCeilDiv W s)
    have e2 := Nat.div_add_mod j (natCeilDiv W s)
    rw [← e1, ← e2, h1, h2]
  refine ⟨hid, ?_⟩
  intro hEq
  apply hid
  have hEq2 : (chunkIdStr (i % natCeilDiv W s) (i / natCeilDiv W s) ++ ".") ++
      fmt = (chunkIdStr (j % natCeilDiv W s) (j / natCeilDiv W s) ++ ".") ++
      fmt := hEq
  have h3 := append_right_inj hEq2
  exact append_right_inj h3

theorem C10_witness : (0 : Int) < 3 ∧ ∃ md,
    (chunkImage 7 5 3 "png" "out").fst = Except.ok md ∧
    ∀ (i j : Nat) (ci cj : ChunkMetadata),
      md.chunks[i]? = some ci → md.chunks[j]? = some cj → i ≠ j →
      ci.id ≠ cj.id ∧ ci.filename ≠ cj.filename := by
  obtain ⟨md, hmd⟩ : ∃ md,
      (chunkImage 7 5 3 "png" "out").fst = Except.ok md := ⟨_, rfl⟩
  exact ⟨by decide, md, hmd,
    C10_distinct_ids 7 5 3 "png" "out" (by decide) md hmd⟩

end TexForge
